import Mathlib

/-!
# One Word — verification of the experiment engine

Shallow embedding of the core of the `one-word-latent-space` repository:
the provider gateway (`src/lib/providers.ts`), the experiment runner
(`src/lib/runner.ts`) and the configuration expansion in `src/App.tsx`.

Numbers that are JavaScript `number`s are modelled as rationals (`ℚ`);
Shannon entropy is computed over the reals.  Wall-clock readings
(`Date.now()`) are modelled as explicit clock values threaded through the
functions that consume them.
-/

namespace OneWord

/-! ## Word extraction (`BaseProvider.extractWord`, providers.ts 50–65)

The source:
```
const cleaned = text
  .trim()
  .replace(/[^\w\s'-]/g, '')
  .split(/\s+/)[0]
  .toLowerCase();
if (!cleaned || cleaned.length === 0) { throw new Error(...) }
return cleaned;
```
Strings are modelled as `List Char`.  `\s` is modelled by the ASCII
whitespace characters, `\w` by `[A-Za-z0-9_]`; this matches the JS regex
classes on ASCII input. -/

/-- The characters matched by `\s` (restricted to ASCII). -/
def isWsChar (c : Char) : Bool :=
  c == ' ' || c == '\t' || c == '\n' || c == '\r'

/-- The characters matched by `\w`: letters, digits and underscore. -/
def isWordChar (c : Char) : Bool :=
  (('a' ≤ c && c ≤ 'z') || ('A' ≤ c && c ≤ 'Z') || ('0' ≤ c && c ≤ '9') || c == '_')

/-- The characters the regex `[^\w\s'-]` does *not* delete: word
characters, whitespace, apostrophe and hyphen. -/
def keepChar (c : Char) : Bool :=
  isWordChar c || isWsChar c || c == Char.ofNat 39 || c == '-'

/-- `String.prototype.trim`: drop leading and trailing whitespace. -/
def trimChars (l : List Char) : List Char :=
  ((l.dropWhile isWsChar).reverse.dropWhile isWsChar).reverse

/-- `text.split(/\s+/)[0]`: with no leading separator the first element of
the split is the longest whitespace-free prefix; with a leading separator
it is the empty string.  Both cases are `takeWhile (¬ ws)`. -/
def jsFirstField (l : List Char) : List Char :=
  l.takeWhile (fun c => !isWsChar c)

/-- `text.trim().replace(/[^\w\s'-]/g, '')` — the cleaned text before the
split. -/
def cleanText (l : List Char) : List Char :=
  (trimChars l).filter keepChar

/-- `BaseProvider.extractWord`.  `none` models the thrown
`EmptyResponse` (`'No valid word in response'`) error. -/
def extractWord (text : List Char) : Option (List Char) :=
  let cleaned := (jsFirstField (cleanText text)).map Char.toLower
  if cleaned.isEmpty then none else some cleaned

/-- Spec-side notion: the whitespace-delimited non-empty tokens of a
character list (used to state what "a non-empty token remains after
stripping" means). -/
def wsTokens (l : List Char) : List (List Char) :=
  (l.splitOnP isWsChar).filter (fun t => !t.isEmpty)

/-- Whether the list starts with a whitespace character. -/
def leadingWs (l : List Char) : Bool :=
  match l with
  | [] => false
  | c :: _ => isWsChar c

theorem splitOnP_headI {α : Type} (p : α → Bool) (xs : List α) :
    (xs.splitOnP p).headI = xs.takeWhile (fun a => !p a) := by
  induction xs with
  | nil => simp [List.splitOnP_nil]
  | cons a xs ih =>
    rw [List.splitOnP_cons]
    by_cases h : p a
    · simp [h, List.takeWhile_cons, List.headI]
    · have hne := List.splitOnP_ne_nil p xs
      cases hx : xs.splitOnP p with
      | nil => exact absurd hx hne
      | cons y ys =>
        simp only [h, if_neg, List.modifyHead, List.takeWhile_cons,
          Bool.not_eq_true] at *
        simp [hx, List.headI, h, ← ih]

theorem wsTokens_head_of_not_leading (l : List Char) (h : leadingWs l = false) :
    (wsTokens l).headI = jsFirstField l ∧
    (l ≠ [] → wsTokens l ≠ []) := by
  cases l with
  | nil =>
    constructor
    · simp only [wsTokens, List.splitOnP_nil, jsFirstField, List.takeWhile_nil]
      rfl
    · intro hc; exact absurd rfl hc
  | cons c rest =>
    have hc : isWsChar c = false := by simpa [leadingWs] using h
    have hne := List.splitOnP_ne_nil isWsChar rest
    cases hx : rest.splitOnP isWsChar with
    | nil => exact absurd hx hne
    | cons y ys =>
      have hsplit : (c :: rest).splitOnP isWsChar = (c :: y) :: ys := by
        rw [List.splitOnP_cons, if_neg (by simp [hc]), hx]
        rfl
      have hhead : y = rest.takeWhile (fun a => !isWsChar a) := by
        have := splitOnP_headI isWsChar rest
        rw [hx] at this
        simpa [List.headI] using this
      constructor
      · simp [wsTokens, hsplit, jsFirstField, List.takeWhile_cons, hc, hhead,
          List.headI]
      · intro _
        simp [wsTokens, hsplit]

theorem jsFirstField_eq_nil_iff (l : List Char) :
    jsFirstField l = [] ↔ (l = [] ∨ leadingWs l = true) := by
  cases l with
  | nil => simp [jsFirstField, leadingWs]
  | cons c rest =>
    by_cases h : isWsChar c
    · simp [jsFirstField, List.takeWhile_cons, h, leadingWs]
    · simp [jsFirstField, List.takeWhile_cons, h, leadingWs]

theorem extractWord_eq_none_iff (t : List Char) :
    extractWord t = none ↔ jsFirstField (cleanText t) = [] := by
  unfold extractWord
  by_cases h : jsFirstField (cleanText t) = []
  · simp [h]
  · simp [h, List.isEmpty_iff]

/-- C2 (counterexample): on the raw response `". hi"` the non-empty token
`"hi"` remains after stripping punctuation (the cleaned text is `" hi"`),
yet `extractWord` raises `EmptyResponse` instead of returning it — the
split happens after the strip, and the leading whitespace uncovered by
deleting the dot makes the first split field empty. -/
theorem extractWord_claim_counterexample :
    wsTokens (cleanText (String.toList ". hi")) = [String.toList "hi"] ∧
    extractWord (String.toList ". hi") = none := by
  decide

/-- C2 (amended): normalization strips all punctuation except hyphens and
apostrophes from the trimmed text and fails with `EmptyResponse` exactly
when the stripped text is empty or begins with whitespace; otherwise (no
leading whitespace) it returns the first whitespace-delimited token of the
stripped text, lowercased.  In particular a non-empty token preceded by
uncovered leading whitespace is *not* returned: the call errs instead. -/
theorem extractWord_amended (t : List Char) :
    (extractWord t = none ↔
      (cleanText t = [] ∨ leadingWs (cleanText t) = true)) ∧
    (leadingWs (cleanText t) = false → cleanText t ≠ [] →
      extractWord t = some (((wsTokens (cleanText t)).headI).map Char.toLower)) := by
  constructor
  · rw [extractWord_eq_none_iff, jsFirstField_eq_nil_iff]
  · intro hlead hne
    have hfield : jsFirstField (cleanText t) ≠ [] := by
      rw [Ne, jsFirstField_eq_nil_iff]
      simp [hne, hlead]
    have hhead := (wsTokens_head_of_not_leading (cleanText t) hlead).1
    rw [hhead]
    unfold extractWord
    simp [List.isEmpty_iff, hfield]

/-- Witness for `extractWord_amended` at the concrete response
`"Hi there."`. -/
theorem extractWord_amended_witness :
    leadingWs (cleanText (String.toList "Hi there.")) = false ∧
    cleanText (String.toList "Hi there.") ≠ [] ∧
    extractWord (String.toList "Hi there.") =
      some (((wsTokens (cleanText (String.toList "Hi there."))).headI).map
        Char.toLower) :=
  ⟨by decide, by decide,
    (extractWord_amended (String.toList "Hi there.")).2 (by decide) (by decide)⟩

/-! ## Configuration expansion (`generateRange`, `handleCreateExperiment`,
App.tsx 188–284)

JavaScript numbers are modelled as rationals. -/

/-- One point in the sweep (`ExperimentConfig`). -/
structure ExperimentConfig where
  temperature : ℚ
  topK : ℚ
deriving DecidableEq, Repr

/-- `generateRange` (App.tsx):
```
if (steps === 1) return [min];
const stepSize = (max - min) / (steps - 1);
return Array.from({ length: steps }, (_, i) => min + i * stepSize);
``` -/
def generateRange (lo hi : ℚ) (steps : ℕ) : List ℚ :=
  if steps = 1 then [lo]
  else (List.range steps).map
    (fun i : ℕ => lo + (i : ℚ) * ((hi - lo) / ((steps : ℚ) - 1)))

/-- Single-value versus min/max/steps mode of one sweep axis. -/
inductive ParamMode where
  | single
  | range
deriving DecidableEq, Repr

/-- The builder state consumed by `handleCreateExperiment` (the fields the
configuration expansion reads). -/
structure ExperimentBuilderState where
  temperatureMode : ParamMode
  temperatureSingle : ℚ
  temperatureMin : ℚ
  temperatureMax : ℚ
  temperatureSteps : ℕ
  topKMode : ParamMode
  topKSingle : ℚ
  topKMin : ℚ
  topKMax : ℚ
  topKSteps : ℕ

/-- The discretized temperature axis (`temps` in `handleCreateExperiment`). -/
def tempAxis (b : ExperimentBuilderState) : List ℚ :=
  match b.temperatureMode with
  | .range => generateRange b.temperatureMin b.temperatureMax b.temperatureSteps
  | .single => [b.temperatureSingle]

/-- The discretized top-K axis (`topKs` in `handleCreateExperiment`). -/
def topKAxis (b : ExperimentBuilderState) : List ℚ :=
  match b.topKMode with
  | .range => generateRange b.topKMin b.topKMax b.topKSteps
  | .single => [b.topKSingle]

/-- The configs list built by `handleCreateExperiment`: a special case when
both axes are in `single` mode, otherwise the nested `for temp / for topK`
grid. -/
def expandConfigs (b : ExperimentBuilderState) : List ExperimentConfig :=
  if b.temperatureMode = .single ∧ b.topKMode = .single then
    [⟨b.temperatureSingle, b.topKSingle⟩]
  else
    (tempAxis b).flatMap (fun t => (topKAxis b).map (fun k => ⟨t, k⟩))

/-- C3 (counterexample): the claim quantifies over all range specs with
`max ≥ min` and `steps ≥ 1` and asserts strictly increasing values for
`steps = n > 1`; but for the valid degenerate spec `min = max = 0`,
`steps = 2` the generated list is `[0, 0]`, which is not strictly
increasing. -/
theorem generateRange_claim_counterexample :
    (0 : ℚ) ≤ 0 ∧ (1 : ℕ) < 2 ∧ generateRange 0 0 2 = [0, 0] ∧
    ¬ List.Chain' (· < ·) (generateRange (0 : ℚ) 0 2) := by
  have hg : generateRange (0:ℚ) 0 2 = [0, 0] := by
    unfold generateRange
    norm_num [List.range_succ]
  refine ⟨le_refl 0, by omega, hg, ?_⟩
  rw [hg]
  simp [List.chain'_cons]

/-- C3 (amended): `steps = 1` yields exactly `[lo]`; `steps = n ≥ 2` yields
the `n` values `lo + i·(hi-lo)/(n-1)` for `i = 0..n-1`, with first `lo` and
last `hi`, strictly increasing whenever `lo < hi` (when `lo = hi` every
value equals `lo`); and the experiment's configs list is the Cartesian
product of the two discretized axes iterating outer over temperature and
inner over top-K. -/
theorem generateRange_amended (lo hi : ℚ) (n : ℕ) :
    (generateRange lo hi 1 = [lo]) ∧
    (2 ≤ n → generateRange lo hi n =
      (List.range n).map
        (fun i : ℕ => lo + (i : ℚ) * ((hi - lo) / ((n : ℚ) - 1)))) ∧
    (2 ≤ n → (generateRange lo hi n).length = n) ∧
    (2 ≤ n → (generateRange lo hi n).head? = some lo) ∧
    (2 ≤ n → (generateRange lo hi n).getLast? = some hi) ∧
    (2 ≤ n → lo < hi → List.Chain' (· < ·) (generateRange lo hi n)) ∧
    (2 ≤ n → lo = hi → ∀ x ∈ generateRange lo hi n, x = lo) ∧
    (∀ b : ExperimentBuilderState, expandConfigs b =
      (tempAxis b).flatMap (fun t => (topKAxis b).map (fun k => ⟨t, k⟩))) := by
  have hmap : ∀ m : ℕ, 2 ≤ m → generateRange lo hi m =
      (List.range m).map
        (fun i : ℕ => lo + (i : ℚ) * ((hi - lo) / ((m : ℚ) - 1))) := by
    intro m hm
    unfold generateRange
    rw [if_neg (by omega)]
  refine ⟨by unfold generateRange; simp, hmap n, ?_, ?_, ?_, ?_, ?_, ?_⟩
  · intro hn; rw [hmap n hn]; simp
  · intro hn
    rw [hmap n hn]
    obtain ⟨m, rfl⟩ : ∃ m, n = m + 2 := ⟨n - 2, by omega⟩
    rw [show m + 2 = (m + 1) + 1 from rfl, List.range_succ_eq_map]
    simp
  · intro hn
    rw [hmap n hn, List.getLast?_map]
    obtain ⟨m, rfl⟩ : ∃ m, n = m + 2 := ⟨n - 2, by omega⟩
    rw [List.range_succ]
    simp only [List.getLast?_concat, Option.map_some]
    have hne : ((m + 2 : ℕ) : ℚ) - 1 ≠ 0 := by
      push_cast
      have : (0:ℚ) ≤ (m:ℚ) := Nat.cast_nonneg m
      intro h; linarith [h]
    push_cast at hne ⊢
    field_simp
    ring
  · intro hn hlt
    rw [hmap n hn, List.chain'_map]
    obtain ⟨m, rfl⟩ : ∃ m, n = m + 2 := ⟨n - 2, by omega⟩
    rw [show m + 2 = (m + 1) + 1 from rfl, List.chain'_range_succ]
    intro k hk
    have hd : (0:ℚ) < (hi - lo) / (((m + 1 + 1 : ℕ) : ℚ) - 1) := by
      apply div_pos (by linarith)
      push_cast
      have : (0:ℚ) ≤ (m:ℚ) := Nat.cast_nonneg m
      linarith
    have hk1 : ((k:ℚ)) < ((k + 1 : ℕ) : ℚ) := by push_cast; linarith
    nlinarith [hd, hk1]
  · intro hn heq x hx
    rw [hmap n hn] at hx
    obtain ⟨i, _, rfl⟩ := List.mem_map.mp hx
    subst heq
    simp
  · intro b
    unfold expandConfigs
    by_cases h : b.temperatureMode = .single ∧ b.topKMode = .single
    · rw [if_pos h]
      simp [tempAxis, topKAxis, h.1, h.2]
    · rw [if_neg h]

/-- Witness for `generateRange_amended` at `lo = 0`, `hi = 1`, `n = 3`. -/
theorem generateRange_amended_witness :
    (2 ≤ 3 ∧ (0:ℚ) < 1) ∧
    List.Chain' (· < ·) (generateRange (0:ℚ) 1 3) ∧
    (generateRange (0:ℚ) 1 3).getLast? = some 1 :=
  ⟨⟨by omega, by norm_num⟩,
    (generateRange_amended 0 1 3).2.2.2.2.2.1 (by omega) (by norm_num),
    (generateRange_amended 0 1 3).2.2.2.2.1 (by omega)⟩

/-! ## Cost estimation and the static provider table (providers.ts)

Each provider's `estimateCost` reads a per-model price pair (per 1k input
tokens, per 1k output tokens) from a hard-coded table and returns 0 for an
unknown model.  The UI-facing `PROVIDER_DATA` table carries its own
`inputCostPer1k`/`outputCostPer1k` per model. -/

/-- `AnthropicProvider.estimateCost`'s `modelPricing` table. -/
def anthropicPricing (model : String) : Option (ℚ × ℚ) :=
  match model with
  | "claude-opus-4-5-20251101" => some (0.005, 0.025)
  | "claude-sonnet-4-5-20250929" => some (0.003, 0.015)
  | "claude-haiku-4-5-20251001" => some (0.001, 0.005)
  | "claude-opus-4-1-20250805" => some (0.015, 0.075)
  | "claude-opus-4-20250514" => some (0.015, 0.075)
  | "claude-sonnet-4-20250514" => some (0.003, 0.015)
  | "claude-3-7-sonnet-20250219" => some (0.003, 0.015)
  | "claude-3-5-haiku-20241022" => some (0.001, 0.005)
  | "claude-3-opus-20240229" => some (0.015, 0.075)
  | "claude-3-haiku-20240307" => some (0.00025, 0.00125)
  | _ => none

/-- `OpenAIProvider.estimateCost`'s `modelPricing` table. -/
def openaiPricing (model : String) : Option (ℚ × ℚ) :=
  match model with
  | "gpt-4o" => some (0.0025, 0.01)
  | "gpt-4o-mini" => some (0.00015, 0.0006)
  | "gpt-4-turbo" => some (0.01, 0.03)
  | _ => none

/-- `KimiProvider.estimateCost`'s `modelPricing` table. -/
def kimiPricing (model : String) : Option (ℚ × ℚ) :=
  match model with
  | "moonshot-v1-8k" => some (0.001, 0.002)
  | "moonshot-v1-32k" => some (0.002, 0.004)
  | "moonshot-v1-128k" => some (0.005, 0.01)
  | _ => none

/-- The pricing table of the provider registered under `providerId`;
an unregistered provider id has no prices. -/
def providerPricing (providerId : String) : String → Option (ℚ × ℚ) :=
  match providerId with
  | "anthropic" => anthropicPricing
  | "openai" => openaiPricing
  | "kimi" => kimiPricing
  | _ => fun _ => none

/-- The shared body of the three `estimateCost` methods:
`(inputTokens/1000)*input + (outputTokens/1000)*output`, 0 for an unknown
model; `ProviderRegistry.estimateCost` additionally returns 0 for an
unknown provider, which the `none` table dispatch covers. -/
def registryEstimateCost (providerId model : String)
    (inputTokens outputTokens : ℚ) : ℚ :=
  match providerPricing providerId model with
  | none => 0
  | some (inp, out) => inputTokens / 1000 * inp + outputTokens / 1000 * out

/-- One entry of a provider's `models` list in `PROVIDER_DATA`. -/
structure ModelInfo where
  id : String
  providerId : String
  name : String
  generation : String
  inputCostPer1k : ℚ
  outputCostPer1k : ℚ
deriving DecidableEq, Repr

/-- One entry of `PROVIDER_DATA`. -/
structure ProviderInfo where
  id : String
  name : String
  icon : String
  accentColor : String
  baseUrl : String
  models : List ModelInfo
deriving DecidableEq, Repr

/-- The static `PROVIDER_DATA` table (providers.ts 440–628). -/
def PROVIDER_DATA : List ProviderInfo :=
  [{ id := "anthropic", name := "Anthropic", icon := "🧠",
     accentColor := "cyan", baseUrl := "https://api.anthropic.com",
     models :=
      [{ id := "claude-opus-4-5-20251101", providerId := "anthropic",
         name := "Claude 4.5 Opus", generation := "4.5",
         inputCostPer1k := 0.005, outputCostPer1k := 0.025 },
       { id := "claude-sonnet-4-5-20250929", providerId := "anthropic",
         name := "Claude 4.5 Sonnet", generation := "4.5",
         inputCostPer1k := 0.003, outputCostPer1k := 0.015 },
       { id := "claude-haiku-4-5-20251001", providerId := "anthropic",
         name := "Claude 4.5 Haiku", generation := "4.5",
         inputCostPer1k := 0.001, outputCostPer1k := 0.005 },
       { id := "claude-opus-4-1-20250805", providerId := "anthropic",
         name := "Claude 4.1 Opus", generation := "4.1",
         inputCostPer1k := 0.015, outputCostPer1k := 0.075 },
       { id := "claude-opus-4-20250514", providerId := "anthropic",
         name := "Claude 4 Opus", generation := "4",
         inputCostPer1k := 0.015, outputCostPer1k := 0.075 },
       { id := "claude-sonnet-4-20250514", providerId := "anthropic",
         name := "Claude 4 Sonnet", generation := "4",
         inputCostPer1k := 0.003, outputCostPer1k := 0.015 },
       { id := "claude-3-7-sonnet-20250219", providerId := "anthropic",
         name := "Claude 3.7 Sonnet", generation := "3.7",
         inputCostPer1k := 0.003, outputCostPer1k := 0.015 },
       { id := "claude-3-5-haiku-20241022", providerId := "anthropic",
         name := "Claude 3.5 Haiku", generation := "3.5",
         inputCostPer1k := 0.001, outputCostPer1k := 0.005 },
       { id := "claude-3-opus-20240229", providerId := "anthropic",
         name := "Claude 3 Opus", generation := "3",
         inputCostPer1k := 0.015, outputCostPer1k := 0.075 },
       { id := "claude-3-haiku-20240307", providerId := "anthropic",
         name := "Claude 3 Haiku", generation := "3",
         inputCostPer1k := 0.00025, outputCostPer1k := 0.00125 }] },
   { id := "openai", name := "OpenAI", icon := "🤖",
     accentColor := "emerald", baseUrl := "https://api.openai.com",
     models :=
      [{ id := "o1", providerId := "openai", name := "o1",
         generation := "o1",
         inputCostPer1k := 0.015, outputCostPer1k := 0.06 },
       { id := "o1-mini", providerId := "openai", name := "o1 Mini",
         generation := "o1",
         inputCostPer1k := 0.003, outputCostPer1k := 0.012 },
       { id := "o3-mini", providerId := "openai", name := "o3 Mini",
         generation := "o3",
         inputCostPer1k := 0.0011, outputCostPer1k := 0.0044 },
       { id := "gpt-4o", providerId := "openai", name := "GPT-4o",
         generation := "4o",
         inputCostPer1k := 0.0025, outputCostPer1k := 0.01 },
       { id := "gpt-4o-mini", providerId := "openai", name := "GPT-4o Mini",
         generation := "4o",
         inputCostPer1k := 0.00015, outputCostPer1k := 0.0006 },
       { id := "gpt-4-turbo", providerId := "openai", name := "GPT-4 Turbo",
         generation := "4",
         inputCostPer1k := 0.01, outputCostPer1k := 0.03 }] },
   { id := "kimi", name := "Kimi", icon := "🌙",
     accentColor := "amber", baseUrl := "https://api.moonshot.cn",
     models :=
      [{ id := "moonshot-v1-8k", providerId := "kimi",
         name := "Moonshot v1 8K", generation := "1",
         inputCostPer1k := 0.001, outputCostPer1k := 0.002 },
       { id := "moonshot-v1-32k", providerId := "kimi",
         name := "Moonshot v1 32K", generation := "1",
         inputCostPer1k := 0.002, outputCostPer1k := 0.004 },
       { id := "moonshot-v1-128k", providerId := "kimi",
         name := "Moonshot v1 128K", generation := "1",
         inputCostPer1k := 0.006, outputCostPer1k := 0.012 }] }]

/-- `ExperimentRunner.findModelById`: scan the providers in order and
return the first model whose id matches. -/
def findModelById (modelId : String) : Option ModelInfo :=
  PROVIDER_DATA.findSome? (fun p => p.models.find? (fun m => m.id == modelId))

/-- C9 (counterexample): the `PROVIDER_DATA` entry for `moonshot-v1-128k`
advertises prices 0.006/0.012 per 1k tokens, but `KimiProvider.estimateCost`
prices the same model at 0.005/0.01, so the two tables disagree for this
model. -/
theorem providerData_pricing_counterexample :
    (findModelById "moonshot-v1-128k").map
      (fun m => (m.inputCostPer1k, m.outputCostPer1k)) = some (0.006, 0.012) ∧
    providerPricing "kimi" "moonshot-v1-128k" = some (0.005, 0.01) ∧
    ((0.006 : ℚ), (0.012 : ℚ)) ≠ ((0.005 : ℚ), (0.01 : ℚ)) :=
  ⟨rfl, rfl, by norm_num⟩

/-- C9 (amended): for every model of `PROVIDER_DATA` except
`moonshot-v1-128k` (whose two price pairs disagree: 0.006/0.012 versus
0.005/0.01) and the o-series models `o1`, `o1-mini`, `o3-mini` (absent from
`OpenAIProvider.estimateCost`'s table, hence priced 0 there), the
`inputCostPer1k`/`outputCostPer1k` of the static table equal the per-1k
prices used by that model's provider `estimateCost` method. -/
theorem providerData_pricing_amended :
    ∀ m ∈ PROVIDER_DATA.flatMap ProviderInfo.models,
      m.id ∉ (["moonshot-v1-128k", "o1", "o1-mini", "o3-mini"] : List String) →
      providerPricing m.providerId m.id =
        some (m.inputCostPer1k, m.outputCostPer1k) := by
  intro m hm hne
  fin_cases hm <;> simp_all <;> rfl

/-- Witness for `providerData_pricing_amended` at the `gpt-4o` entry. -/
theorem providerData_pricing_amended_witness :
    providerPricing "openai" "gpt-4o" = some (0.0025, 0.01) := by
  have hm : (⟨"gpt-4o", "openai", "GPT-4o", "4o", 0.0025, 0.01⟩ : ModelInfo) ∈
      PROVIDER_DATA.flatMap ProviderInfo.models := by simp [PROVIDER_DATA]
  exact providerData_pricing_amended _ hm (by simp)

/-! ## Rate limiter (`RateLimiter`, `ProviderRegistry`, providers.ts 321–436)

`processQueue` drains the FIFO queue one item at a time: before running an
item it waits until at least `interval = 60000 / requestsPerMinute`
milliseconds have elapsed since `lastRequestTime`, runs the item to
completion, and stamps `lastRequestTime` with the completion time.  The
drain is modelled as a schedule function over explicit clock values: each
queued job is represented by its (nonnegative) duration, and the model
returns the (start, finish) times the drain loop assigns.  After an item
finishes, the loop's next `Date.now()` reading is that item's completion
time, so the clock fed to the next iteration is the previous finish. -/

/-- The wait-then-run step for one queue item: the start time respects the
minimum interval since `lastReq`, the finish time adds the job's
duration. -/
def limiterStep (interval lastReq clock dur : ℚ) : ℚ × ℚ :=
  let start := if clock - lastReq < interval then lastReq + interval else clock
  (start, start + dur)

/-- The schedule `processQueue` assigns to a queue of job durations,
given the stored `lastRequestTime` and the current clock. -/
def drainSchedule (interval : ℚ) : ℚ → ℚ → List ℚ → List (ℚ × ℚ)
  | _, _, [] => []
  | lastReq, clock, d :: ds =>
    let se := limiterStep interval lastReq clock d
    se :: drainSchedule interval se.2 se.2 ds

/-- The per-provider limiter entry of `ProviderRegistry.rateLimiters`:
the interval fixed at construction and the mutable `lastRequestTime`. -/
structure LimiterState where
  interval : ℚ
  lastRequestTime : ℚ
deriving DecidableEq, Repr

/-- `ProviderRegistry.sample` dispatch on the limiter map: an unknown
provider throws (`none`) and touches no limiter; a known provider's call is
scheduled on that provider's limiter alone and its `lastRequestTime` is
advanced to the completion time. -/
def registrySample (limiters : List (String × LimiterState)) (pid : String)
    (clock dur : ℚ) : List (String × LimiterState) × Option (ℚ × ℚ) :=
  match limiters.lookup pid with
  | none => (limiters, none)
  | some st =>
    let se := limiterStep st.interval st.lastRequestTime clock dur
    (limiters.map (fun e => if e.1 = pid then (pid, ⟨st.interval, se.2⟩) else e),
      some se)

theorem drainSchedule_durations (interval : ℚ) (durs : List ℚ) :
    ∀ lastReq clock,
      (drainSchedule interval lastReq clock durs).map (fun se => se.2 - se.1)
        = durs := by
  induction durs with
  | nil => intro lastReq clock; rfl
  | cons d ds ih =>
    intro lastReq clock
    simp only [drainSchedule, List.map_cons, limiterStep]
    rw [List.cons_eq_cons]
    constructor
    · ring
    · exact ih _ _

theorem limiterStep_self_start (I t d : ℚ) (hI : 0 < I) :
    (limiterStep I t t d).1 = t + I := by
  simp only [limiterStep]
  rw [if_pos (show t - t < I by rw [sub_self]; exact hI)]

theorem limiterStep_fin (I lastReq clock d : ℚ) :
    (limiterStep I lastReq clock d).2 = (limiterStep I lastReq clock d).1 + d :=
  rfl

theorem drainSchedule_spacing (interval : ℚ) (hI : 0 < interval)
    (durs : List ℚ) (hdurs : ∀ d ∈ durs, 0 ≤ d) :
    ∀ lastReq clock,
      List.Chain' (fun a b : ℚ × ℚ => a.1 + interval ≤ b.1 ∧ a.2 + interval ≤ b.1)
        (drainSchedule interval lastReq clock durs) := by
  induction durs with
  | nil => intro lastReq clock; exact List.chain'_nil
  | cons d ds ih =>
    intro lastReq clock
    have hd : 0 ≤ d := hdurs d (List.mem_cons_self d ds)
    have hds : ∀ x ∈ ds, 0 ≤ x := fun x hx => hdurs x (List.mem_cons_of_mem d hx)
    simp only [drainSchedule]
    rw [List.chain'_cons']
    refine ⟨?_, (ih hds) _ _⟩
    intro b hb
    cases ds with
    | nil => simp [drainSchedule] at hb
    | cons d2 ds2 =>
      simp only [drainSchedule, List.head?_cons, Option.mem_def,
        Option.some_inj] at hb
      rw [← hb, limiterStep_self_start _ _ _ hI,
        limiterStep_fin interval lastReq clock d]
      constructor <;> linarith

theorem lookup_map_setOther (l : List (String × LimiterState)) (pid q : String)
    (v : LimiterState) (hq : q ≠ pid) :
    (l.map (fun e => if e.1 = pid then (pid, v) else e)).lookup q
      = l.lookup q := by
  induction l with
  | nil => rfl
  | cons e es ih =>
    obtain ⟨k, val⟩ := e
    by_cases he : k = pid
    · subst he
      rw [List.map_cons, if_pos (show (k, val).1 = k from rfl)]
      have h1 : (q == k) = false := by simpa using hq
      simp [List.lookup, h1, ih]
    · rw [List.map_cons, if_neg (show ¬(k, val).1 = pid from he)]
      cases hqk : (q == k) with
      | true => simp [List.lookup, hqk]
      | false => simp [List.lookup, hqk, ih]

theorem registrySample_isolation (limiters : List (String × LimiterState))
    (pid q : String) (clock dur : ℚ) (hq : q ≠ pid) :
    ((registrySample limiters pid clock dur).1).lookup q
      = limiters.lookup q := by
  unfold registrySample
  cases h : limiters.lookup pid with
  | none => rfl
  | some st => exact lookup_map_setOther limiters pid q _ hq

/-- C6: requests submitted to one provider's rate limiter are executed one
at a time in submission (FIFO) order — the drain schedule assigns the i-th
submitted job its own duration, and each execution starts only after the
previous one has finished — with at least `60000 / requestsPerMinute`
milliseconds (1000 ms at the default 60 rpm) between the starts of
consecutive requests; and a call routed to one provider's limiter leaves
every other provider's limiter state untouched. -/
theorem rateLimiter_fifo_spacing_isolation (rpm : ℚ) (hrpm : 0 < rpm)
    (lastReq clock : ℚ) (durs : List ℚ) (hdurs : ∀ d ∈ durs, 0 ≤ d) :
    (60000 / (60 : ℚ) = 1000) ∧
    ((drainSchedule (60000 / rpm) lastReq clock durs).map
      (fun se => se.2 - se.1) = durs) ∧
    List.Chain' (fun a b : ℚ × ℚ =>
        a.1 + 60000 / rpm ≤ b.1 ∧ a.2 + 60000 / rpm ≤ b.1)
      (drainSchedule (60000 / rpm) lastReq clock durs) ∧
    (∀ (limiters : List (String × LimiterState)) (pid q : String) (c dur : ℚ),
      q ≠ pid →
      ((registrySample limiters pid c dur).1).lookup q = limiters.lookup q) := by
  have hI : (0 : ℚ) < 60000 / rpm := by positivity
  exact ⟨by norm_num, drainSchedule_durations _ durs lastReq clock,
    drainSchedule_spacing _ hI durs hdurs lastReq clock,
    fun limiters pid q c dur hq => registrySample_isolation limiters pid q c dur hq⟩

/-- Witness for `rateLimiter_fifo_spacing_isolation`: two jobs of durations
2 ms and 3 ms at the default 60 requests per minute. -/
theorem rateLimiter_fifo_spacing_isolation_witness :
    (0 : ℚ) < 60 ∧ (∀ d ∈ ([2, 3] : List ℚ), 0 ≤ d) ∧
    List.Chain' (fun a b : ℚ × ℚ =>
        a.1 + 60000 / 60 ≤ b.1 ∧ a.2 + 60000 / 60 ≤ b.1)
      (drainSchedule (60000 / 60) 0 0 [2, 3]) :=
  ⟨by norm_num, by intro d hd; fin_cases hd <;> norm_num,
    (rateLimiter_fifo_spacing_isolation 60 (by norm_num) 0 0 [2, 3]
      (by intro d hd; fin_cases hd <;> norm_num)).2.2.1⟩

/-! ## Experiment runner (`ExperimentRunner`, runner.ts)

The runner's data model.  Wall-clock timestamp fields (`createdAt`,
`startedAt`, `completedAt`, `Sample.timestamp`) and the `Date.now()`
component of sample ids are outside the model; `latencyMs` is likewise a
wall-clock reading and is fixed to 0.  Provider calls are driven by an
oracle `modelId → config → repetition → Option word`: `some` is a
successful call, `none` any per-sample failure (timeout, empty response,
HTTP or network error). -/

/-- `Experiment.status`. -/
inductive ExperimentStatus where
  | pending
  | running
  | completed
  | failed
  | cancelled
deriving DecidableEq, Repr

/-- The `Experiment` record (lib/types.ts), timestamps abstracted. -/
structure Experiment where
  id : String
  stimulus : String
  selectedModels : List String
  configs : List ExperimentConfig
  samplesPerConfig : ℕ
  estimatedCost : ℚ
  totalCalls : ℕ
  status : ExperimentStatus
  actualCost : Option ℚ := none
  progress : Option ℚ := none
deriving DecidableEq, Repr

/-- `handleCreateExperiment` sets
`totalCalls = selectedModels.length * configs.length * samplesPerConfig`;
experiments reaching the runner satisfy this. -/
def Experiment.wf (e : Experiment) : Prop :=
  e.totalCalls = e.selectedModels.length * e.configs.length * e.samplesPerConfig

/-- The `Sample` record, timestamp abstracted and `latencyMs` fixed to 0. -/
structure Sample where
  id : String
  experimentId : String
  modelId : String
  temperature : ℚ
  topK : ℚ
  word : String
  latencyMs : ℚ
  cost : ℚ
deriving DecidableEq, Repr

/-- JS truthiness of `apiKeys[providerId]`: present and non-empty. -/
def hasKey (keys : List (String × String)) (pid : String) : Bool :=
  match keys.lookup pid with
  | some s => !(s == "")
  | none => false

/-- Insertion into the `requiredProviders` `Set` (insertion-ordered,
duplicates dropped). -/
def insertUniq (l : List String) (x : String) : List String :=
  if x ∈ l then l else l ++ [x]

/-- The `requiredProviders` set built in `ExperimentRunner.start`: the
provider ids of those selected models that `findModelById` resolves
(an unknown model id contributes nothing). -/
def requiredProviders (selectedModels : List String) : List String :=
  selectedModels.foldl
    (fun acc mid =>
      match findModelById mid with
      | some m => insertUniq acc m.providerId
      | none => acc) []

/-- The `missingKeys` list of `ExperimentRunner.start`. -/
def missingKeys (selectedModels : List String)
    (keys : List (String × String)) : List String :=
  (requiredProviders selectedModels).filter (fun pid => !hasKey keys pid)

/-- The two synchronous failures of `ExperimentRunner.start`. -/
inductive StartError where
  | alreadyRunning
  | missingCredentials (providerIds : List String)
deriving DecidableEq, Repr

/-- `ExperimentRunner.start` up to the point where execution is launched
asynchronously: result, the updated set of running ids, the (possibly
updated) experiment record, and the samples created synchronously (always
none). -/
def startExperiment (running : List String) (e : Experiment)
    (keys : List (String × String)) :
    Except StartError Unit × List String × Experiment × List Sample :=
  if e.id ∈ running then (.error .alreadyRunning, running, e, [])
  else
    let missing := missingKeys e.selectedModels keys
    if missing.isEmpty then
      (.ok (), e.id :: running, { e with status := .running }, [])
    else (.error (.missingCredentials missing), running, e, [])

/-- Outcome oracle for provider calls (see section comment). -/
def Oracle : Type :=
  String → ExperimentConfig → ℕ → Option String

/-- The `Sample` built for a successful call in
`executeSamplesForConfig`: cost is
`providers.estimateCost(providerId, {model, inputTokens: ceil(len/4),
outputTokens: 1})`. -/
def mkSample (e : Experiment) (m : ModelInfo) (c : ExperimentConfig)
    (i : ℕ) (w : String) : Sample :=
  { id := e.id ++ "-" ++ m.id ++ "-" ++ toString i,
    experimentId := e.id,
    modelId := m.id,
    temperature := c.temperature,
    topK := c.topK,
    word := w,
    latencyMs := 0,
    cost := registryEstimateCost m.providerId m.id
      (((e.stimulus.length + 3) / 4 : ℕ) : ℚ) 1 }

/-- The ordered attempts the execution loop makes when never cancelled:
models in selection order (unknown ids and ids whose provider has no key
are skipped with `continue`), configs in order, `samplesPerConfig`
repetitions each. -/
def plannedAttempts (e : Experiment) (keys : List (String × String)) :
    List (String × ExperimentConfig × ℕ) :=
  e.selectedModels.flatMap (fun mid =>
    match findModelById mid with
    | none => []
    | some m =>
      if hasKey keys m.providerId then
        e.configs.flatMap (fun c =>
          (List.range e.samplesPerConfig).map (fun i => (mid, c, i)))
      else [])

/-- One attempt: a successful oracle call yields a `Sample`, a failed call
is logged and skipped. -/
def attemptSample (e : Experiment) (oracle : Oracle)
    (att : String × ExperimentConfig × ℕ) : Option Sample :=
  match findModelById att.1 with
  | none => none
  | some m => (oracle att.1 att.2.1 att.2.2).map (mkSample e m att.2.1 att.2.2)

/-- The samples an uncancelled run collects, in collection order. -/
def runSamples (e : Experiment) (keys : List (String × String))
    (oracle : Oracle) : List Sample :=
  (plannedAttempts e keys).filterMap (attemptSample e oracle)

/-- The successive values of `progress.completedCalls` observable through
`getProgress`: 0 initially, incremented by one after each successful call
(failed calls do not increment). -/
def progressTrace (e : Experiment) (keys : List (String × String))
    (oracle : Oracle) : List ℕ :=
  (plannedAttempts e keys).scanl
    (fun acc att => acc + (if (oracle att.1 att.2.1 att.2.2).isSome then 1 else 0))
    0

/-! ## Results aggregation (`ExperimentRunner.generateResults`,
runner.ts 271–377)

`Map<string, number>` preserves insertion order, so the word-count map is
modelled as an insertion-ordered association list; `Array.prototype.sort`
with comparator `(a, b) => b.count - a.count` is a stable descending sort
by count, modelled by stable insertion sort.  Percentages are exact
rationals; the entropy reduction is over the reals. -/

/-- One `WordFrequency` entry. -/
structure WordFrequency where
  word : String
  count : ℕ
  percentage : ℚ
deriving DecidableEq, Repr

/-- `wordCounts.set(word, (wordCounts.get(word) || 0) + 1)` on an
insertion-ordered association list. -/
def bumpWord : List (String × ℕ) → String → List (String × ℕ)
  | [], w => [(w, 1)]
  | (w0, c) :: rest, w =>
    if w0 = w then (w0, c + 1) :: rest else (w0, c) :: bumpWord rest w

/-- The word-count map accumulated over the samples. -/
def wordCounts (samples : List Sample) : List (String × ℕ) :=
  samples.foldl (fun acc s => bumpWord acc s.word) []

/-- Stable insertion (an element goes before the first strictly smaller
count, after equal counts already placed) — the behaviour of the stable
`sort((a, b) => b.count - a.count)`. -/
def insertByCountDesc (x : WordFrequency) :
    List WordFrequency → List WordFrequency
  | [] => [x]
  | y :: ys => if x.count < y.count then y :: insertByCountDesc x ys
               else x :: y :: ys

/-- Stable descending-by-count sort. -/
def sortByCountDesc (l : List WordFrequency) : List WordFrequency :=
  l.foldr insertByCountDesc []

/-- Counts → `WordFrequency` list with `percentage = count/total × 100`,
sorted descending by count. -/
def freqList (counts : List (String × ℕ)) (total : ℕ) : List WordFrequency :=
  sortByCountDesc (counts.map
    (fun wc => ⟨wc.1, wc.2, (wc.2 : ℚ) / (total : ℚ) * 100⟩))

/-- The entropy reduction:
`-Σ (p > 0 ? p * log2(p) : 0)` with `p = percentage / 100`. -/
noncomputable def entropyOf (topWords : List WordFrequency) : ℝ :=
  -(topWords.map (fun wf =>
      let p : ℝ := ((wf.percentage : ℚ) : ℝ) / 100
      if 0 < p then p * Real.logb 2 p else 0)).sum

/-- One `byModel` entry (`ModelResult`). -/
structure ModelResult where
  modelId : String
  config : ExperimentConfig
  words : List WordFrequency
  totalSamples : ℕ
  uniqueWords : ℕ
deriving DecidableEq, Repr

/-- Append to an insertion-ordered group map (JS `Map` of arrays). -/
def groupPush {κ : Type} [DecidableEq κ] :
    List (κ × List Sample) → κ → Sample → List (κ × List Sample)
  | [], k, s => [(k, [s])]
  | (k0, ss) :: rest, k, s =>
    if k0 = k then (k0, ss ++ [s]) :: rest
    else (k0, ss) :: groupPush rest k s

/-- Group the samples by a key, preserving insertion order. -/
def groupBySample {κ : Type} [DecidableEq κ] (key : Sample → κ)
    (samples : List Sample) : List (κ × List Sample) :=
  samples.foldl (fun acc s => groupPush acc (key s) s) []

/-- One model's aggregate: frequencies scoped to the group, the config
taken from the group's first sample. -/
def modelResultOf (mid : String) (ss : List Sample) : ModelResult :=
  let counts := wordCounts ss
  { modelId := mid,
    config :=
      match ss with
      | [] => ⟨0, 0⟩
      | s :: _ => ⟨s.temperature, s.topK⟩,
    words := freqList counts ss.length,
    totalSamples := ss.length,
    uniqueWords := counts.length }

/-- The `ExperimentResults` report. -/
structure ExperimentResults where
  experimentId : String
  totalSamples : ℕ
  uniqueWords : ℕ
  topWords : List WordFrequency
  entropy : ℝ
  byModel : List ModelResult
  byTemperature : List (ℚ × List WordFrequency)

/-- `ExperimentRunner.generateResults`. -/
noncomputable def generateResults (e : Experiment) (samples : List Sample) :
    ExperimentResults :=
  let counts := wordCounts samples
  let totalSamples := samples.length
  let topWords := freqList counts totalSamples
  { experimentId := e.id,
    totalSamples := totalSamples,
    uniqueWords := counts.length,
    topWords := topWords,
    entropy := entropyOf topWords,
    byModel := (groupBySample Sample.modelId samples).map
      (fun g => modelResultOf g.1 g.2),
    byTemperature := (groupBySample Sample.temperature samples).map
      (fun g => (g.1, freqList (wordCounts g.2) g.2.length)) }

/-- `samples.reduce((sum, sample) => sum + sample.cost, 0)`. -/
def sumCosts (samples : List Sample) : ℚ :=
  (samples.map Sample.cost).sum

/-- `completeExperiment`: status `completed`, results generated and saved
unconditionally. -/
noncomputable def completeExperiment (e : Experiment) (samples : List Sample) :
    Experiment × Option ExperimentResults :=
  ({ e with
      status := .completed
      actualCost := some (sumCosts samples)
      progress := some 100 },
    some (generateResults e samples))

/-- `handleError`: status `failed`; results generated and saved only
`if (samples.length > 0)`. -/
noncomputable def handleErrorFinal (e : Experiment) (samples : List Sample) :
    Experiment × Option ExperimentResults :=
  ({ e with status := .failed, actualCost := some (sumCosts samples) },
    if samples.length > 0 then some (generateResults e samples) else none)

/-- `abort`: status `cancelled`; results generated and saved only
`if (samples.length > 0)`. -/
noncomputable def abortFinal (e : Experiment) (samples : List Sample) :
    Experiment × Option ExperimentResults :=
  ({ e with status := .cancelled, actualCost := some (sumCosts samples) },
    if samples.length > 0 then some (generateResults e samples) else none)

/-- The full uncancelled run: `executeExperiment` followed by
`completeExperiment`. -/
noncomputable def runToCompletion (e : Experiment) (keys : List (String × String))
    (oracle : Oracle) :
    Experiment × List Sample × Option ExperimentResults :=
  let samples := runSamples e keys oracle
  let fin := completeExperiment e samples
  (fin.1, samples, fin.2)

/-- A concrete running experiment used to exercise the terminal
transitions. -/
def expRunning : Experiment :=
  { id := "exp-1", stimulus := "The sky is", selectedModels := ["gpt-4o"],
    configs := [⟨1, 40⟩], samplesPerConfig := 10, estimatedCost := 0,
    totalCalls := 10, status := .running }

/-- C1 (counterexample): a failed or cancelled experiment with zero
collected samples reaches its terminal status but produces *no* persisted
results report — `handleError` and `abort` generate results only
`if (samples.length > 0)`, contradicting the claim that every terminal
transition persists a (possibly zero) report. -/
theorem zero_sample_report_counterexample :
    (handleErrorFinal expRunning []).1.status = .failed ∧
    (handleErrorFinal expRunning []).2 = none ∧
    (abortFinal expRunning []).1.status = .cancelled ∧
    (abortFinal expRunning []).2 = none :=
  ⟨rfl, rfl, rfl, rfl⟩

/-- C1 (amended): aggregating an empty sample set yields
`totalSamples = 0`, `uniqueWords = 0`, `topWords = []`, `entropy = 0`
without throwing, and a *completed* experiment always gets a persisted
report (even with zero samples); but a failed or cancelled experiment gets
a report exactly when at least one sample was collected. -/
theorem zero_sample_report_amended (e : Experiment) (samples : List Sample) :
    ((completeExperiment e samples).2 = some (generateResults e samples)) ∧
    ((generateResults e []).totalSamples = 0) ∧
    ((generateResults e []).uniqueWords = 0) ∧
    ((generateResults e []).topWords = []) ∧
    ((generateResults e []).entropy = 0) ∧
    ((handleErrorFinal e samples).2.isSome ↔ samples ≠ []) ∧
    ((abortFinal e samples).2.isSome ↔ samples ≠ []) := by
  refine ⟨rfl, rfl, rfl, rfl, ?_, ?_, ?_⟩
  · show entropyOf (freqList (wordCounts []) 0) = 0
    simp [entropyOf, freqList, wordCounts, sortByCountDesc]
  · unfold handleErrorFinal
    cases samples with
    | nil => simp
    | cons s ss => simp
  · unfold abortFinal
    cases samples with
    | nil => simp
    | cons s ss => simp

/-- C4: `start` fails synchronously with `AlreadyRunning` when the
experiment's id is already running, and with `MissingCredentials`
(listing exactly the required provider ids that lack a key) when the
credential check fails; in both cases the running set, the experiment
record (hence its `pending` status) and the sample store are untouched. -/
theorem start_failure_modes (running : List String) (e : Experiment)
    (keys : List (String × String)) :
    (e.id ∈ running →
      startExperiment running e keys = (.error .alreadyRunning, running, e, [])) ∧
    (e.id ∉ running → missingKeys e.selectedModels keys ≠ [] →
      startExperiment running e keys =
        (.error (.missingCredentials (missingKeys e.selectedModels keys)),
          running, e, [])) ∧
    (∀ pid, pid ∈ missingKeys e.selectedModels keys ↔
      (pid ∈ requiredProviders e.selectedModels ∧ hasKey keys pid = false)) := by
  refine ⟨?_, ?_, ?_⟩
  · intro h
    unfold startExperiment
    rw [if_pos h]
  · intro h1 h2
    have h3 : ¬((missingKeys e.selectedModels keys).isEmpty = true) := by
      simpa [List.isEmpty_iff] using h2
    unfold startExperiment
    rw [if_neg h1, if_neg h3]
  · intro pid
    unfold missingKeys
    rw [List.mem_filter]
    simp

/-- A pending experiment whose only selected model requires the `openai`
provider. -/
def expPending : Experiment :=
  { id := "exp-2", stimulus := "The sky is", selectedModels := ["gpt-4o"],
    configs := [⟨1, 40⟩], samplesPerConfig := 10, estimatedCost := 0,
    totalCalls := 10, status := .pending }

/-- Witness for `start_failure_modes`: an id collision and an empty
credential map. -/
theorem start_failure_modes_witness :
    ("exp-1" ∈ (["exp-1"] : List String)) ∧
    startExperiment ["exp-1"] { expPending with id := "exp-1" } []
      = (.error .alreadyRunning, ["exp-1"],
          { expPending with id := "exp-1" }, []) ∧
    ("exp-2" ∉ (["exp-1"] : List String)) ∧
    missingKeys ["gpt-4o"] [] ≠ [] ∧
    startExperiment ["exp-1"] expPending []
      = (.error (.missingCredentials (missingKeys ["gpt-4o"] [])),
          ["exp-1"], expPending, []) :=
  ⟨by decide,
    (start_failure_modes ["exp-1"] { expPending with id := "exp-1" } []).1
      (by decide),
    by decide, by decide,
    (start_failure_modes ["exp-1"] expPending []).2.1 (by decide) (by decide)⟩

theorem scanl_head? {α β : Type} (g : β → α → β) (b : β) (l : List α) :
    (List.scanl g b l).head? = some b := by
  cases l <;> rfl

theorem sum_map_const_nat {α : Type} (l : List α) (c : ℕ) (f : α → ℕ)
    (h : ∀ x ∈ l, f x = c) : (l.map f).sum = l.length * c := by
  induction l with
  | nil => simp
  | cons a l ih =>
    have ha := h a (List.mem_cons_self a l)
    have hl := ih (fun x hx => h x (List.mem_cons_of_mem a hx))
    simp [ha, hl, Nat.succ_mul, Nat.add_comm]

theorem sum_map_le_nat {α : Type} (l : List α) (c : ℕ) (f : α → ℕ)
    (h : ∀ x ∈ l, f x ≤ c) : (l.map f).sum ≤ l.length * c := by
  induction l with
  | nil => simp
  | cons a l ih =>
    have ha := h a (List.mem_cons_self a l)
    have hl := ih (fun x hx => h x (List.mem_cons_of_mem a hx))
    simp only [List.map_cons, List.sum_cons, List.length_cons, Nat.succ_mul]
    omega

theorem chain_le_scanl_add {α : Type} (f : α → ℕ) (l : List α) :
    ∀ init : ℕ,
      List.Chain' (· ≤ ·) (l.scanl (fun acc x => acc + f x) init) := by
  induction l with
  | nil => intro init; simp [List.scanl]
  | cons a l ih =>
    intro init
    show List.Chain' (· ≤ ·)
      (init :: List.scanl (fun acc x => acc + f x) (init + f a) l)
    rw [List.chain'_cons']
    refine ⟨?_, ih _⟩
    intro b hb
    rw [scanl_head?] at hb
    cases hb
    exact Nat.le_add_right _ _

theorem mem_scanl_add_le {α : Type} (f : α → ℕ) (hf : ∀ x, f x ≤ 1)
    (l : List α) :
    ∀ init, ∀ v ∈ l.scanl (fun acc x => acc + f x) init,
      v ≤ init + l.length := by
  induction l with
  | nil =>
    intro init v hv
    simp [List.scanl] at hv
    omega
  | cons a l ih =>
    intro init v hv
    have hv2 : v ∈ init :: List.scanl (fun acc x => acc + f x) (init + f a) l :=
      hv
    rcases List.mem_cons.mp hv2 with h | h
    · subst h
      simp
    · have h1 := ih (init + f a) v h
      have h2 := hf a
      simp only [List.length_cons]
      omega

theorem length_flatMap_eq {α β : Type} (l : List α) (f : α → List β) :
    (l.flatMap f).length = (l.map (fun a => (f a).length)).sum := by
  induction l with
  | nil => rfl
  | cons a l ih => simp [List.flatMap_cons, ih]

theorem perModelAttempts_length_le (e : Experiment)
    (keys : List (String × String)) (mid : String) :
    ((match findModelById mid with
      | none => []
      | some m =>
        if hasKey keys m.providerId then
          e.configs.flatMap (fun c =>
            (List.range e.samplesPerConfig).map (fun i => (mid, c, i)))
        else []) : List (String × ExperimentConfig × ℕ)).length
      ≤ e.configs.length * e.samplesPerConfig := by
  cases findModelById mid with
  | none => simp
  | some m =>
    by_cases hk : hasKey keys m.providerId
    · simp only [hk, if_true]
      rw [length_flatMap_eq]
      have := sum_map_const_nat e.configs e.samplesPerConfig
        (fun c => ((List.range e.samplesPerConfig).map
          (fun i => (mid, c, i))).length)
        (fun c _ => by simp)
      rw [this]
    · simp [hk]

theorem plannedAttempts_length_le (e : Experiment)
    (keys : List (String × String)) :
    (plannedAttempts e keys).length ≤
      e.selectedModels.length * (e.configs.length * e.samplesPerConfig) := by
  unfold plannedAttempts
  rw [length_flatMap_eq]
  exact sum_map_le_nat e.selectedModels
    (e.configs.length * e.samplesPerConfig) _
    (fun mid _ => perModelAttempts_length_le e keys mid)

/-- C7: the `completedCalls` values observable through `getProgress` over a
run — 0 initially, bumped by one on each successful call — form a
monotonically non-decreasing sequence and never exceed `totalCalls`. -/
theorem progress_monotone_bounded (e : Experiment)
    (keys : List (String × String)) (oracle : Oracle) (hwf : e.wf) :
    List.Chain' (· ≤ ·) (progressTrace e keys oracle) ∧
    ∀ v ∈ progressTrace e keys oracle, v ≤ e.totalCalls := by
  constructor
  · exact chain_le_scanl_add _ _ 0
  · intro v hv
    unfold progressTrace at hv
    have h1 := mem_scanl_add_le
      (fun att : String × ExperimentConfig × ℕ =>
        if (oracle att.1 att.2.1 att.2.2).isSome then 1 else 0)
      (fun att => by
        by_cases h : (oracle att.1 att.2.1 att.2.2).isSome <;> simp [h])
      (plannedAttempts e keys) 0 v hv
    have h2 := plannedAttempts_length_le e keys
    rw [Experiment.wf] at hwf
    calc v ≤ 0 + (plannedAttempts e keys).length := h1
      _ = (plannedAttempts e keys).length := Nat.zero_add _
      _ ≤ e.selectedModels.length * (e.configs.length * e.samplesPerConfig) :=
          h2
      _ = e.totalCalls := by rw [hwf, Nat.mul_assoc]

/-- A pending 1-model, 1-config, 3-repetition experiment. -/
def expThree : Experiment :=
  { expPending with samplesPerConfig := 3, totalCalls := 3 }

/-- The oracle whose second repetition fails and otherwise answers
`"blue"`. -/
def oracleOneFailure : Oracle :=
  fun _ _ i => if i = 1 then none else some "blue"

/-- Witness for `progress_monotone_bounded`: one model, one config, three
repetitions, the second call failing. -/
theorem progress_monotone_bounded_witness :
    Experiment.wf expThree ∧
    ∀ v ∈ progressTrace expThree [("openai", "sk-test")] oracleOneFailure,
      v ≤ expThree.totalCalls :=
  ⟨rfl,
    (progress_monotone_bounded expThree [("openai", "sk-test")]
      oracleOneFailure rfl).2⟩

theorem findModelById_id (mid : String) (m : ModelInfo)
    (h : findModelById mid = some m) : m.id = mid := by
  unfold findModelById at h
  obtain ⟨p, _, hfind⟩ := List.exists_of_findSome?_eq_some h
  have := List.find?_some hfind
  simpa using this

theorem plannedAttempts_model_known (e : Experiment)
    (keys : List (String × String)) :
    ∀ att ∈ plannedAttempts e keys, (findModelById att.1).isSome := by
  intro att hatt
  unfold plannedAttempts at hatt
  rw [List.mem_flatMap] at hatt
  obtain ⟨mid, _, hmem⟩ := hatt
  cases hf : findModelById mid with
  | none => simp [hf] at hmem
  | some m =>
    by_cases hk : hasKey keys m.providerId
    · simp only [hf, hk, if_true] at hmem
      rw [List.mem_flatMap] at hmem
      obtain ⟨c, _, hmem⟩ := hmem
      rw [List.mem_map] at hmem
      obtain ⟨i, _, rfl⟩ := hmem
      simp [hf]
    · simp [hf, hk] at hmem

theorem requiredProviders_skip_unknown (l : List String) (mu : String)
    (hu : findModelById mu = none) :
    requiredProviders l = requiredProviders (l.filter (fun mid => mid != mu)) := by
  unfold requiredProviders
  suffices h : ∀ acc, l.foldl
      (fun acc mid =>
        match findModelById mid with
        | some m => insertUniq acc m.providerId
        | none => acc) acc
    = (l.filter (fun mid => mid != mu)).foldl
      (fun acc mid =>
        match findModelById mid with
        | some m => insertUniq acc m.providerId
        | none => acc) acc from h []
  induction l with
  | nil => intro acc; rfl
  | cons mid l ih =>
    intro acc
    by_cases hm : mid = mu
    · subst hm
      have : (mid != mid) = false := by simp
      rw [List.filter_cons, this]
      simp only [List.foldl_cons, hu]
      exact ih acc
    · have : (mid != mu) = true := by simpa using hm
      rw [List.filter_cons, this]
      simp only [List.foldl_cons, if_true]
      exact ih _

theorem sum_map_lt_of_zero_mem {α : Type} [DecidableEq α] (l : List α)
    (f : α → ℕ) (c : ℕ) (x : α) (hx : x ∈ l) (hfx : f x = 0)
    (hb : ∀ y ∈ l, f y ≤ c) (hc : 0 < c) :
    (l.map f).sum < l.length * c := by
  obtain ⟨s, t, rfl⟩ := List.append_of_mem hx
  have hs : (s.map f).sum ≤ s.length * c :=
    sum_map_le_nat s c f (fun y hy => hb y (List.mem_append_left _ hy))
  have ht : (t.map f).sum ≤ t.length * c :=
    sum_map_le_nat t c f
      (fun y hy => hb y (List.mem_append_right _ (List.mem_cons_of_mem _ hy)))
  simp only [List.map_append, List.map_cons, List.sum_append, List.sum_cons,
    List.length_append, List.length_cons, hfx]
  have : (s.length + (t.length + 1)) * c
      = s.length * c + t.length * c + c := by ring
  omega

/-- C10: a selected model id that matches no registered model contributes
no provider to the credential check (so `start` cannot raise
`MissingCredentials` on its account), the execution loop skips it entirely
(no sample carries its id), the run still finishes with status `completed`,
and `completedCalls` ends strictly below `totalCalls` whenever
`samplesPerConfig > 0` (and the configs list is non-empty, as the data
model guarantees). -/
theorem unknown_model_skipped (e : Experiment)
    (keys : List (String × String)) (oracle : Oracle) (mu : String)
    (hwf : e.wf) (hmem : mu ∈ e.selectedModels)
    (hu : findModelById mu = none) (hc : e.configs ≠ [])
    (hs : 0 < e.samplesPerConfig) :
    (missingKeys e.selectedModels keys
      = missingKeys (e.selectedModels.filter (fun mid => mid != mu)) keys) ∧
    (∀ s ∈ runSamples e keys oracle, s.modelId ≠ mu) ∧
    ((runToCompletion e keys oracle).1.status = .completed) ∧
    ((runSamples e keys oracle).length < e.totalCalls) := by
  refine ⟨?_, ?_, rfl, ?_⟩
  · unfold missingKeys
    rw [requiredProviders_skip_unknown e.selectedModels mu hu]
  · intro s hs'
    unfold runSamples at hs'
    rw [List.mem_filterMap] at hs'
    obtain ⟨att, hatt, hsample⟩ := hs'
    have hknown := plannedAttempts_model_known e keys att hatt
    unfold attemptSample at hsample
    cases hf : findModelById att.1 with
    | none => rw [hf] at hsample; simp at hsample
    | some m =>
      rw [hf] at hsample
      cases ho : oracle att.1 att.2.1 att.2.2 with
      | none => rw [ho] at hsample; simp at hsample
      | some w =>
        rw [ho] at hsample
        have hss : mkSample e m att.2.1 att.2.2 w = s := by
          simpa using hsample
        rw [← hss]
        show (mkSample e m att.2.1 att.2.2 w).modelId ≠ mu
        have hid : m.id = att.1 := findModelById_id att.1 m hf
        intro hcontra
        have h3 : att.1 = mu := by
          rw [← hid]
          exact hcontra
        rw [h3, hu] at hf
        exact Option.noConfusion hf
  · have h1 : (runSamples e keys oracle).length ≤ (plannedAttempts e keys).length := by
      unfold runSamples
      exact List.length_filterMap_le _ _
    have h2 : (plannedAttempts e keys).length <
        e.selectedModels.length * (e.configs.length * e.samplesPerConfig) := by
      unfold plannedAttempts
      rw [length_flatMap_eq]
      refine sum_map_lt_of_zero_mem e.selectedModels _ _ mu hmem ?_
        (fun mid _ => perModelAttempts_length_le e keys mid) ?_
      · simp [hu]
      · have : 0 < e.configs.length := List.length_pos.mpr hc
        positivity
    rw [Experiment.wf] at hwf
    calc (runSamples e keys oracle).length
        ≤ (plannedAttempts e keys).length := h1
      _ < e.selectedModels.length * (e.configs.length * e.samplesPerConfig) := h2
      _ = e.totalCalls := by rw [hwf, Nat.mul_assoc]

/-- Witness for `unknown_model_skipped`: selection `[gpt-4o,
mystery-model]` where the second id matches no registered model. -/
theorem unknown_model_skipped_witness :
    Experiment.wf { expPending with
      selectedModels := ["gpt-4o", "mystery-model"], totalCalls := 20 } ∧
    ("mystery-model" ∈ ["gpt-4o", "mystery-model"]) ∧
    findModelById "mystery-model" = none ∧
    (runSamples { expPending with
        selectedModels := ["gpt-4o", "mystery-model"], totalCalls := 20 }
      [("openai", "sk-test")] (fun _ _ _ => some "blue")).length < 20 :=
  ⟨rfl, by decide, rfl,
    (unknown_model_skipped
      { expPending with
        selectedModels := ["gpt-4o", "mystery-model"], totalCalls := 20 }
      [("openai", "sk-test")] (fun _ _ _ => some "blue") "mystery-model"
      rfl (by decide) rfl (by decide) (by decide)).2.2.2⟩

theorem plannedAttempts_length_eq (e : Experiment)
    (keys : List (String × String))
    (hall : ∀ mid ∈ e.selectedModels, ∃ m, findModelById mid = some m ∧
      hasKey keys m.providerId = true) :
    (plannedAttempts e keys).length =
      e.selectedModels.length * (e.configs.length * e.samplesPerConfig) := by
  unfold plannedAttempts
  rw [length_flatMap_eq]
  apply sum_map_const_nat
  intro mid hmid
  obtain ⟨m, hf, hk⟩ := hall mid hmid
  simp only [hf, hk, if_true]
  rw [length_flatMap_eq]
  apply sum_map_const_nat
  intro c _
  simp

theorem length_filterMap_add_none {α β : Type} (f : α → Option β)
    (l : List α) :
    (l.filterMap f).length + (l.filter (fun a => (f a).isNone)).length
      = l.length := by
  induction l with
  | nil => rfl
  | cons a l ih =>
    cases hf : f a with
    | none =>
      simp only [List.filterMap_cons, List.filter_cons, hf, Option.isNone_none,
        if_true, List.length_cons]
      omega
    | some b =>
      simp only [List.filterMap_cons, List.filter_cons, hf, Option.isNone_some,
        List.length_cons, Bool.false_eq_true, if_false]
      omega

theorem bumpWord_sum (acc : List (String × ℕ)) (w : String) :
    ((bumpWord acc w).map (fun wc => wc.2)).sum
      = ((acc.map (fun wc => wc.2)).sum) + 1 := by
  induction acc with
  | nil => rfl
  | cons wc rest ih =>
    obtain ⟨w0, c⟩ := wc
    by_cases h : w0 = w
    · simp [bumpWord, h]
      omega
    · simp [bumpWord, h, ih]
      omega

theorem wordCounts_sum (samples : List Sample) :
    ((wordCounts samples).map (fun wc => wc.2)).sum = samples.length := by
  unfold wordCounts
  suffices h : ∀ acc, (((samples.foldl (fun acc s => bumpWord acc s.word) acc).map
      (fun wc => wc.2)).sum) = ((acc.map (fun wc => wc.2)).sum) + samples.length by
    simpa using h []
  induction samples with
  | nil => intro acc; simp
  | cons s ss ih =>
    intro acc
    simp only [List.foldl_cons, List.length_cons]
    rw [ih (bumpWord acc s.word), bumpWord_sum]
    omega

theorem insertByCountDesc_perm (x : WordFrequency) (l : List WordFrequency) :
    (insertByCountDesc x l).Perm (x :: l) := by
  induction l with
  | nil => exact List.Perm.refl _
  | cons y ys ih =>
    unfold insertByCountDesc
    by_cases h : x.count < y.count
    · rw [if_pos h]
      exact (ih.cons y).trans (List.Perm.swap x y ys)
    · rw [if_neg h]

theorem sortByCountDesc_perm (l : List WordFrequency) :
    (sortByCountDesc l).Perm l := by
  induction l with
  | nil => exact List.Perm.refl _
  | cons a l ih =>
    show (insertByCountDesc a (sortByCountDesc l)).Perm (a :: l)
    exact (insertByCountDesc_perm a _).trans (ih.cons a)

theorem freqList_count_sum (counts : List (String × ℕ)) (total : ℕ) :
    ((freqList counts total).map WordFrequency.count).sum
      = (counts.map (fun wc => wc.2)).sum := by
  unfold freqList
  have hperm := sortByCountDesc_perm (counts.map
    (fun wc => ⟨wc.1, wc.2, (wc.2 : ℚ) / (total : ℚ) * 100⟩))
  have := (hperm.map WordFrequency.count).sum_eq
  rw [this, List.map_map]
  rfl

/-- C5: with every selected model known and keyed and exactly one failing
provider call among the planned attempts, the uncancelled run ends with
status `completed`, collects exactly `totalCalls - 1` samples (the failing
attempt is absent from the sample list), and the aggregated report counts
exactly those `totalCalls - 1` samples (the failing attempt is absent from
every aggregated count). -/
theorem single_failure_run (e : Experiment) (keys : List (String × String))
    (oracle : Oracle) (hwf : e.wf)
    (hall : ∀ mid ∈ e.selectedModels, ∃ m, findModelById mid = some m ∧
      hasKey keys m.providerId = true)
    (hfail : ((plannedAttempts e keys).filter
      (fun att => (oracle att.1 att.2.1 att.2.2).isNone)).length = 1) :
    ((runToCompletion e keys oracle).1.status = .completed) ∧
    ((runSamples e keys oracle).length = e.totalCalls - 1) ∧
    ((generateResults e (runSamples e keys oracle)).totalSamples
      = e.totalCalls - 1) ∧
    (((generateResults e (runSamples e keys oracle)).topWords.map
      WordFrequency.count).sum = e.totalCalls - 1) := by
  have hlen : (plannedAttempts e keys).length = e.totalCalls := by
    rw [plannedAttempts_length_eq e keys hall, Experiment.wf] at *
    rw [hwf, Nat.mul_assoc]
  have hcong : (plannedAttempts e keys).filter
      (fun att => (attemptSample e oracle att).isNone)
    = (plannedAttempts e keys).filter
      (fun att => (oracle att.1 att.2.1 att.2.2).isNone) := by
    apply List.filter_congr
    intro att hatt
    have hknown := plannedAttempts_model_known e keys att hatt
    cases hf : findModelById att.1 with
    | none => rw [hf] at hknown; simp at hknown
    | some m =>
      unfold attemptSample
      rw [hf]
      cases oracle att.1 att.2.1 att.2.2 <;> rfl
  have hpart := length_filterMap_add_none (attemptSample e oracle)
    (plannedAttempts e keys)
  rw [hcong, hfail, hlen] at hpart
  have hsamples : (runSamples e keys oracle).length = e.totalCalls - 1 := by
    unfold runSamples
    omega
  refine ⟨rfl, hsamples, hsamples, ?_⟩
  show ((freqList (wordCounts (runSamples e keys oracle))
      (runSamples e keys oracle).length).map WordFrequency.count).sum
    = e.totalCalls - 1
  rw [freqList_count_sum, wordCounts_sum, hsamples]

/-- Witness for `single_failure_run`: 3 planned calls, the second one
failing, so the run completes with 2 samples. -/
theorem single_failure_run_witness :
    Experiment.wf expThree ∧
    ((plannedAttempts expThree [("openai", "sk-test")]).filter
      (fun att => (oracleOneFailure att.1 att.2.1 att.2.2).isNone)).length = 1 ∧
    (runSamples expThree [("openai", "sk-test")] oracleOneFailure).length
      = expThree.totalCalls - 1 :=
  ⟨rfl, by decide,
    (single_failure_run expThree [("openai", "sk-test")] oracleOneFailure rfl
      (by
        intro mid hmid
        have hm : mid = "gpt-4o" := by simpa [expThree, expPending] using hmid
        subst hm
        exact ⟨_, rfl, rfl⟩)
      (by decide)).2.1⟩

/-- The entropy summand the reduction computes for one word of count `c`
out of `total` samples, after simplifying `percentage/100` to
`count/total`. -/
noncomputable def entropyTerm (total c : ℕ) : ℝ :=
  if 0 < ((c : ℝ) / (total : ℝ)) then
    ((c : ℝ) / (total : ℝ)) * Real.logb 2 ((c : ℝ) / (total : ℝ))
  else 0

theorem entropyOf_freqList (counts : List (String × ℕ)) (total : ℕ) :
    entropyOf (freqList counts total)
      = -((counts.map (fun wc => entropyTerm total wc.2)).sum) := by
  unfold entropyOf freqList
  have hperm := sortByCountDesc_perm (counts.map
    (fun wc => ⟨wc.1, wc.2, (wc.2 : ℚ) / (total : ℚ) * 100⟩))
  have hsum := (hperm.map (fun wf : WordFrequency =>
      let p : ℝ := ((wf.percentage : ℚ) : ℝ) / 100
      if 0 < p then p * Real.logb 2 p else 0)).sum_eq
  rw [hsum, List.map_map]
  congr 1
  apply congrArg
  apply List.map_congr_left
  intro wc _
  have hp : (((wc.2 : ℚ) / (total : ℚ) * 100 : ℚ) : ℝ) / 100
      = (wc.2 : ℝ) / (total : ℝ) := by
    push_cast
    ring
  simp only [Function.comp, entropyTerm]
  rw [hp]

theorem nat_le_sum_of_mem (l : List ℕ) (x : ℕ) (hx : x ∈ l) : x ≤ l.sum := by
  induction l with
  | nil => simp at hx
  | cons a l ih =>
    rcases List.mem_cons.mp hx with rfl | hx
    · simp
    · have := ih hx
      simp only [List.sum_cons]
      omega

theorem bumpWord_pos (acc : List (String × ℕ)) (w : String)
    (h : ∀ wc ∈ acc, 1 ≤ wc.2) : ∀ wc ∈ bumpWord acc w, 1 ≤ wc.2 := by
  induction acc with
  | nil =>
    intro wc hwc
    simp only [bumpWord, List.mem_singleton] at hwc
    subst hwc
    exact le_refl 1
  | cons e rest ih =>
    obtain ⟨w0, c⟩ := e
    intro wc hwc
    by_cases hw : w0 = w
    · simp only [bumpWord, hw, if_pos] at hwc
      rcases List.mem_cons.mp hwc with rfl | hwc
      · omega
      · exact h wc (List.mem_cons_of_mem _ hwc)
    · simp only [bumpWord, hw, if_false] at hwc
      rcases List.mem_cons.mp hwc with rfl | hwc
      · exact h (w0, c) (List.mem_cons_self _ _)
      · exact ih (fun x hx => h x (List.mem_cons_of_mem _ hx)) wc hwc

theorem wordCounts_pos (samples : List Sample) :
    ∀ wc ∈ wordCounts samples, 1 ≤ wc.2 := by
  unfold wordCounts
  suffices h : ∀ acc, (∀ wc ∈ acc, 1 ≤ wc.2) →
      ∀ wc ∈ samples.foldl (fun acc s => bumpWord acc s.word) acc, 1 ≤ wc.2 by
    exact h [] (by intro wc hwc; simp at hwc)
  induction samples with
  | nil => intro acc hacc; simpa using hacc
  | cons s ss ih =>
    intro acc hacc
    simp only [List.foldl_cons]
    exact ih (bumpWord acc s.word) (bumpWord_pos acc s.word hacc)

theorem bumpWord_ne_nil (acc : List (String × ℕ)) (w : String) :
    bumpWord acc w ≠ [] := by
  cases acc with
  | nil => simp [bumpWord]
  | cons e rest =>
    obtain ⟨w0, c⟩ := e
    by_cases hw : w0 = w <;> simp [bumpWord, hw]

theorem foldl_bump_ne_nil (ss : List Sample) :
    ∀ acc : List (String × ℕ), acc ≠ [] →
      ss.foldl (fun acc s => bumpWord acc s.word) acc ≠ [] := by
  induction ss with
  | nil => intro acc hacc; simpa using hacc
  | cons t ts ih =>
    intro acc hacc
    simp only [List.foldl_cons]
    exact ih _ (bumpWord_ne_nil acc t.word)

theorem wordCounts_ne_nil (samples : List Sample) (hne : samples ≠ []) :
    wordCounts samples ≠ [] := by
  unfold wordCounts
  cases samples with
  | nil => exact absurd rfl hne
  | cons s ss =>
    simp only [List.foldl_cons]
    exact foldl_bump_ne_nil ss _ (bumpWord_ne_nil [] s.word)

theorem list_sum_nonpos (l : List ℝ) (h : ∀ x ∈ l, x ≤ 0) : l.sum ≤ 0 := by
  induction l with
  | nil => simp
  | cons a l ih =>
    have ha := h a (List.mem_cons_self a l)
    have h2 := ih (fun x hx => h x (List.mem_cons_of_mem a hx))
    simp only [List.sum_cons]
    linarith

theorem list_sum_zero_of_nonpos (l : List ℝ) (h : ∀ x ∈ l, x ≤ 0)
    (hs : l.sum = 0) : ∀ x ∈ l, x = 0 := by
  induction l with
  | nil => intro x hx; simp at hx
  | cons a l ih =>
    have ha := h a (List.mem_cons_self a l)
    have hl : ∀ x ∈ l, x ≤ 0 := fun x hx => h x (List.mem_cons_of_mem a hx)
    have hls : l.sum ≤ 0 := list_sum_nonpos l hl
    simp only [List.sum_cons] at hs
    intro x hx
    rcases List.mem_cons.mp hx with rfl | hx
    · linarith
    · exact ih hl (by linarith) x hx

theorem sum_map_const_real {α : Type} (l : List α) (c : ℝ) (f : α → ℝ)
    (h : ∀ x ∈ l, f x = c) : (l.map f).sum = l.length * c := by
  induction l with
  | nil => simp
  | cons a l ih =>
    have ha := h a (List.mem_cons_self a l)
    have hl := ih (fun x hx => h x (List.mem_cons_of_mem a hx))
    simp only [List.map_cons, List.sum_cons, List.length_cons, ha, hl]
    push_cast
    ring

theorem entropyTerm_nonpos (total c : ℕ) (hle : c ≤ total) :
    entropyTerm total c ≤ 0 := by
  unfold entropyTerm
  by_cases hp : 0 < ((c : ℝ) / (total : ℝ))
  · rw [if_pos hp]
    have htot : total ≠ 0 := by
      intro h
      subst h
      simp at hp
    have hp1 : ((c : ℝ) / (total : ℝ)) ≤ 1 := by
      rw [div_le_one (by positivity)]
      exact_mod_cast hle
    exact mul_nonpos_of_nonneg_of_nonpos hp.le
      (Real.logb_nonpos one_lt_two hp.le hp1)
  · rw [if_neg hp]

theorem entropyTerm_eq_zero_iff (total c : ℕ) (hc1 : 1 ≤ c) (hle : c ≤ total)
    (htpos : 0 < total) : (entropyTerm total c = 0 ↔ c = total) := by
  have hp0 : 0 < ((c : ℝ) / (total : ℝ)) := by positivity
  unfold entropyTerm
  rw [if_pos hp0]
  constructor
  · intro h
    rcases mul_eq_zero.mp h with h | h
    · exact absurd h (ne_of_gt hp0)
    · by_contra hne2
      have hlt : c < total := lt_of_le_of_ne hle hne2
      have hp1 : ((c : ℝ) / (total : ℝ)) < 1 := by
        rw [div_lt_one (by positivity)]
        exact_mod_cast hlt
      have := Real.logb_neg one_lt_two hp0 hp1
      linarith
  · intro h
    subst h
    have h1 : ((c : ℝ) / (c : ℝ)) = 1 := div_self (by positivity)
    rw [h1, Real.logb_one, mul_zero]

theorem entropyTerm_self (total : ℕ) (htpos : 0 < total) :
    entropyTerm total total = 0 :=
  (entropyTerm_eq_zero_iff total total htpos le_rfl htpos).mpr rfl

theorem entropyTerm_uniform (k m : ℕ) (hk : 1 ≤ k) (hm : 1 ≤ m) :
    entropyTerm (k * m) m = (1 / (k : ℝ)) * Real.logb 2 (1 / (k : ℝ)) := by
  have hk0 : ((k : ℝ)) ≠ 0 := by positivity
  have hm0 : ((m : ℝ)) ≠ 0 := by positivity
  have hp : ((m : ℝ) / (((k * m : ℕ)) : ℝ)) = 1 / (k : ℝ) := by
    push_cast
    field_simp
    ring
  unfold entropyTerm
  rw [hp, if_pos (by positivity)]

/-- C8: for a non-empty sample set the computed entropy is nonnegative,
it is zero exactly when one distinct word occurs, and when the `k`
distinct words all occur with the same frequency `m` the entropy equals
`log2 k` (exactly, over the reals). -/
theorem entropy_properties (e : Experiment) (samples : List Sample)
    (hne : samples ≠ []) :
    (0 ≤ (generateResults e samples).entropy) ∧
    ((generateResults e samples).entropy = 0 ↔
      (generateResults e samples).uniqueWords = 1) ∧
    (∀ k m : ℕ, (wordCounts samples).length = k →
      (∀ wc ∈ wordCounts samples, wc.2 = m) →
      (generateResults e samples).entropy = Real.logb 2 (k : ℝ)) := by
  have hent : (generateResults e samples).entropy
      = -(((wordCounts samples).map
          (fun wc => entropyTerm samples.length wc.2)).sum) :=
    entropyOf_freqList (wordCounts samples) samples.length
  have huniq : (generateResults e samples).uniqueWords
      = (wordCounts samples).length := rfl
  have hsum : ((wordCounts samples).map (fun wc => wc.2)).sum = samples.length :=
    wordCounts_sum samples
  have hpos := wordCounts_pos samples
  have hcne := wordCounts_ne_nil samples hne
  have htpos : 0 < samples.length := List.length_pos.mpr hne
  have hle : ∀ wc ∈ wordCounts samples, wc.2 ≤ samples.length := by
    intro wc hwc
    rw [← hsum]
    exact nat_le_sum_of_mem _ _ (List.mem_map_of_mem _ hwc)
  have hterm_nonpos : ∀ x ∈ (wordCounts samples).map
      (fun wc => entropyTerm samples.length wc.2), x ≤ 0 := by
    intro x hx
    obtain ⟨wc, hwc, rfl⟩ := List.mem_map.mp hx
    exact entropyTerm_nonpos samples.length wc.2 (hle wc hwc)
  refine ⟨?_, ?_, ?_⟩
  · rw [hent]
    have := list_sum_nonpos _ hterm_nonpos
    linarith
  · rw [hent, huniq]
    constructor
    · intro h0
      have hsz : (((wordCounts samples).map
          (fun wc => entropyTerm samples.length wc.2)).sum) = 0 := by linarith
      have hz := list_sum_zero_of_nonpos _ hterm_nonpos hsz
      have hct : ∀ wc ∈ wordCounts samples, wc.2 = samples.length := by
        intro wc hwc
        exact (entropyTerm_eq_zero_iff samples.length wc.2 (hpos wc hwc)
          (hle wc hwc) htpos).mp (hz _ (List.mem_map_of_mem _ hwc))
      have hconst := sum_map_const_nat (wordCounts samples) samples.length
        (fun wc => wc.2) hct
      rw [hsum] at hconst
      exact Nat.eq_of_mul_eq_mul_right htpos
        (by rw [← hconst, Nat.one_mul])
    · intro h1
      obtain ⟨wc, hwc⟩ := List.length_eq_one.mp h1
      have hwc2 : wc.2 = samples.length := by
        have h2 := hsum
        rw [hwc] at h2
        simpa using h2
      rw [hwc]
      simp only [List.map_cons, List.map_nil, List.sum_cons, List.sum_nil,
        add_zero, hwc2]
      rw [entropyTerm_self samples.length htpos]
      exact neg_zero
  · intro k m hk hm
    rw [hent]
    have hm1 : 1 ≤ m := by
      obtain ⟨wc, hwc⟩ := List.exists_mem_of_ne_nil _ hcne
      have := hpos wc hwc
      rw [hm wc hwc] at this
      exact this
    have hk1 : 1 ≤ k := by
      rw [← hk]
      exact List.length_pos.mpr hcne
    have htot_eq : samples.length = k * m := by
      rw [← hsum, sum_map_const_nat (wordCounts samples) m (fun wc => wc.2) hm,
        hk]
    have hterm : ∀ wc ∈ wordCounts samples,
        entropyTerm samples.length wc.2
          = (1 / (k : ℝ)) * Real.logb 2 (1 / (k : ℝ)) := by
      intro wc hwc
      rw [hm wc hwc, htot_eq]
      exact entropyTerm_uniform k m hk1 hm1
    rw [sum_map_const_real (wordCounts samples)
      ((1 / (k : ℝ)) * Real.logb 2 (1 / (k : ℝ))) _ hterm, hk]
    have hkne : (k : ℝ) ≠ 0 := by positivity
    rw [one_div, Real.logb_inv]
    field_simp

/-- Witness for `entropy_properties`: two samples with distinct words
(`k = 2` words of frequency `m = 1` each), entropy `log2 2`. -/
theorem entropy_properties_witness :
    (([⟨"s1", "exp-1", "gpt-4o", 1, 40, "blue", 0, 0⟩,
       ⟨"s2", "exp-1", "gpt-4o", 1, 40, "red", 0, 0⟩] : List Sample) ≠ []) ∧
    (wordCounts [⟨"s1", "exp-1", "gpt-4o", 1, 40, "blue", 0, 0⟩,
       ⟨"s2", "exp-1", "gpt-4o", 1, 40, "red", 0, 0⟩]).length = 2 ∧
    (generateResults expPending
        [⟨"s1", "exp-1", "gpt-4o", 1, 40, "blue", 0, 0⟩,
         ⟨"s2", "exp-1", "gpt-4o", 1, 40, "red", 0, 0⟩]).entropy
      = Real.logb 2 (2 : ℝ) :=
  ⟨by decide, by decide,
    (entropy_properties expPending
      [⟨"s1", "exp-1", "gpt-4o", 1, 40, "blue", 0, 0⟩,
       ⟨"s2", "exp-1", "gpt-4o", 1, 40, "red", 0, 0⟩]
      (by decide)).2.2 2 1 (by decide) (by decide)⟩

end OneWord

